import Mathlib

/- Verification development for a documentation mirroring and translation
pipeline made of two Python scripts: a site monitor (link discovery, change
detection, mirrored save paths) and an HTML translator (span classification,
terminology and code-identifier protection, batched translation with retry,
resumable main loop).  The sources are shallowly embedded as executable Lean
definitions; external effects (HTTP fetch, translation provider, file system,
clock) are modelled as explicit oracles passed to the embedded functions. -/

set_option maxHeartbeats 1000000

/- ----------------------------------------------------------------- -/
/- Basic character and string utilities shared by the embeddings.    -/
/- ----------------------------------------------------------------- -/

/-- ASCII fragment of Python's whitespace class (str.strip default set and the
regex class backslash-s): space, tab, newline, carriage return, vertical tab,
form feed. -/
def pyIsSpace (c : Char) : Bool :=
  c = ' ' || c = '\t' || c = '\n' || c = '\r' || c = '\x0b' || c = '\x0c'

/-- Word character in the sense of the regex word-boundary assertion, ASCII
fragment: letters, digits and underscore. -/
def isWordChar (c : Char) : Bool :=
  c.isAlpha || c.isDigit || c = '_'

/-- Character admitted by the regex class for the tail of a code identifier:
letters, digits, underscore, dot and colon. -/
def isIdentChar (c : Char) : Bool :=
  c.isAlphanum || c = '_' || c = '.' || c = ':'

/-- Python's substring test (the `in` operator on strings): does `pat` occur
as a contiguous substring of the list? -/
def occurs (pat : List Char) : List Char → Bool
  | [] => pat.isPrefixOf []
  | c :: r => pat.isPrefixOf (c :: r) || occurs pat r

/-- Worker for `replaceAll` when the pattern is non-empty: scan left to right,
replacing each non-overlapping occurrence of `pat` by `rep`, exactly as
Python's str.replace does.  The structural fuel argument makes the definition
kernel-reducible; every step consumes at least one input character, so fuel
equal to the input length (as supplied by `replaceAll`) is always enough and
the fuel-exhausted branch is unreachable there. -/
def replaceLoop (pat rep : List Char) : Nat → List Char → List Char
  | _, [] => []
  | 0, l => l
  | fuel + 1, c :: r =>
    if pat.isPrefixOf (c :: r) then
      rep ++ replaceLoop pat rep fuel (r.drop (pat.length - 1))
    else
      c :: replaceLoop pat rep fuel r

/-- Python's str.replace: replaces all non-overlapping occurrences of `pat` in
`s` by `rep`, scanning left to right; an empty pattern inserts `rep` before
every character and at the end, as Python does. -/
def replaceAll (s pat rep : List Char) : List Char :=
  if pat = [] then rep ++ (s.map (fun c => c :: rep)).flatten
  else replaceLoop pat rep s.length s

/-- String-level wrapper for the substring test. -/
def strOccurs (pat s : String) : Bool := occurs pat.data s.data

/-- String-level wrapper for Python's str.replace. -/
def strReplace (s pat rep : String) : String := ⟨replaceAll s.data pat.data rep.data⟩

/- ----------------------------------------------------------------- -/
/- translate.py: terminology protection (lines 93-108).              -/
/- ----------------------------------------------------------------- -/

/-- Placeholder generated for the terminology entry with index `i`, exactly as
built by translate.py line 98. -/
def placeholderFor (i : Nat) : String :=
  "<span class=\"notranslate\">term" ++ toString i ++ "</span>"

/-- Embedding of translate.py protect_terminology (lines 93-102), generalised
over the starting enumeration index: for each terminology pair, in dictionary
iteration order, if the source term occurs in the text it is replaced
everywhere by the indexed placeholder and the pair (placeholder, target term)
is recorded; the index advances over every entry, matched or not. -/
def protect_terminology_from (i : Nat) (text : String) :
    List (String × String) → String × List (String × String)
  | [] => (text, [])
  | (en, ka) :: rest =>
    let ph := placeholderFor i
    if strOccurs en text then
      let text' := strReplace text en ph
      let res := protect_terminology_from (i + 1) text' rest
      (res.1, (ph, ka) :: res.2)
    else
      protect_terminology_from (i + 1) text rest

/-- Embedding of translate.py protect_terminology: the enumeration starts at
index 0.  The terminology dictionary is modelled as an association list in
dictionary iteration (insertion) order. -/
def protect_terminology (text : String) (terminology : List (String × String)) :
    String × List (String × String) :=
  protect_terminology_from 0 text terminology

/-- Embedding of translate.py unprotect_terminology (lines 104-108): replaces
each recorded placeholder by the target-language term, in recording order. -/
def unprotect_terminology (text : String) (placeholders : List (String × String)) : String :=
  placeholders.foldl (fun t p => strReplace t p.1 p.2) text

/- ----------------------------------------------------------------- -/
/- translate.py: code-identifier protection (lines 111-126).         -/
/- This is a faithful backtracking matcher for the regular expression -/
/- used there: group 1 is a word-boundary-delimited identifier        -/
/- ([a-zA-Z_][a-zA-Z0-9_.:]*), group 2 is optional whitespace and a   -/
/- parenthesized C or C++ kind out of a fixed keyword alternation.    -/
/- ----------------------------------------------------------------- -/

/-- The keyword alternation of the pattern, in alternation order (the first
matching alternative wins). -/
def typeKeywords : List (List Char) :=
  ["macro".data, "function".data, "class".data, "member".data,
   "enumerator".data, "type".data]

/-- Matches the keyword alternation at the head of `l`; returns the consumed
keyword and the rest.  None of the keywords is a prefix of another, so
first-match semantics is unambiguous. -/
def matchKeywordAt (l : List Char) : Option (List Char × List Char) :=
  match typeKeywords.find? (fun kw => kw.isPrefixOf l) with
  | some kw => some (kw, l.drop kw.length)
  | none => none

/-- Consumes the optional ++ of the pattern.  Greedy matching of the optional
group is deterministic here: declining a present ++ can never help, because
the continuation then requires a whitespace character where a plus sign
stands. -/
def matchPlus : List Char → List Char × List Char
  | '+' :: '+' :: rr => (['+', '+'], rr)
  | r => ([], r)

/-- Matches group 2 of the pattern at the head of `l`: greedy whitespace, an
opening parenthesis, the letter C, an optional ++, exactly one whitespace, one
of the kind keywords, and a closing parenthesis.  Returns the consumed text
(the group-2 capture, whitespace included) and the rest. -/
def matchTypeSuffix (l : List Char) : Option (List Char × List Char) :=
  match l.dropWhile pyIsSpace with
  | '(' :: 'C' :: r =>
    match matchPlus r with
    | (plus, c :: r3) =>
      if pyIsSpace c then
        match matchKeywordAt r3 with
        | some (kw, ')' :: r5) =>
          some (l.takeWhile pyIsSpace ++ '(' :: 'C' :: plus ++ c :: kw ++ [')'], r5)
        | _ => none
      else none
    | (_, []) => none
  | _ => none

/-- Word-ness of an optional character; the absence of a character (start or
end of the string) counts as a non-word position for the boundary assertion. -/
def charIsWordOpt : Option Char → Bool
  | some c => isWordChar c
  | none => false

/-- Attempt to end group 1 at the current position: check the trailing
word-boundary assertion between the last identifier character (`acc` is always
non-empty when this is called) and the next input character, then match
group 2 on the rest. -/
def tryStop (acc rest : List Char) : Option (List Char × List Char × List Char) :=
  if isWordChar (acc.getLastD 'a') != charIsWordOpt rest.head? then
    match matchTypeSuffix rest with
    | some (g2, r') => some (acc, g2, r')
    | none => none
  else none

/-- Backtracking continuation for group 1: `acc` is the (non-empty) identifier
matched so far.  Greedy semantics: first try to extend the identifier by one
more identifier character; if that whole branch fails, stop here and try the
boundary assertion and group 2 at this position. -/
def tryIdent (acc : List Char) : List Char → Option (List Char × List Char × List Char)
  | [] => tryStop acc []
  | c :: r =>
    if isIdentChar c then
      match tryIdent (acc ++ [c]) r with
      | some res => some res
      | none => tryStop acc (c :: r)
    else tryStop acc (c :: r)

/-- Tries to match the whole pattern at the current position.  `prev` is the
character immediately before the position (none at the start of the string);
the leading word-boundary assertion together with the first character class
requires `prev` to be a non-word position and the first character to be a
letter or underscore.  Returns the group-1 capture, the group-2 capture and
the remaining input. -/
def matchIdentAt (prev : Option Char) (l : List Char) :
    Option (List Char × List Char × List Char) :=
  match l with
  | c :: r =>
    if !charIsWordOpt prev && (c.isAlpha || c = '_') then
      tryIdent [c] r
    else none
  | [] => none

/-- Opening of the protective span emitted by the replacement function. -/
def spanOpen : List Char := "<span class=\"notranslate\">".data

/-- Closing of the protective span emitted by the replacement function. -/
def spanClose : List Char := "</span>".data

theorem matchKeywordAt_length {l kw r} (h : matchKeywordAt l = some (kw, r)) :
    r.length ≤ l.length := by
  unfold matchKeywordAt at h
  split at h
  · cases h
    simp [List.length_drop]
  · cases h

theorem matchPlus_length (r : List Char) : (matchPlus r).2.length ≤ r.length := by
  unfold matchPlus
  split <;> simp <;> omega

theorem matchTypeSuffix_length {l g2 r'} (h : matchTypeSuffix l = some (g2, r')) :
    r'.length ≤ l.length := by
  have hsuf : (l.dropWhile pyIsSpace).length ≤ l.length :=
    (List.dropWhile_suffix _).length_le
  unfold matchTypeSuffix at h
  split at h
  case _ r heq =>
    rw [heq] at hsuf
    simp only [List.length_cons] at hsuf
    have hpr := matchPlus_length r
    split at h
    case _ plus c r3 heq2 =>
      rw [heq2] at hpr
      simp only [List.length_cons] at hpr
      split at h
      · split at h
        case _ kw r5 heq3 =>
          cases h
          have h4 := matchKeywordAt_length heq3
          simp only [List.length_cons] at h4
          omega
        · cases h
      · cases h
    case _ heq2 => cases h
  · cases h

theorem tryStop_length {acc rest g1 g2 r'}
    (h : tryStop acc rest = some (g1, g2, r')) : r'.length ≤ rest.length := by
  unfold tryStop at h
  split at h
  · split at h
    case _ heq =>
      cases h
      exact matchTypeSuffix_length heq
    · cases h
  · cases h

theorem tryIdent_length : ∀ (rest : List Char) (acc : List Char) {g1 g2 r'},
    tryIdent acc rest = some (g1, g2, r') → r'.length ≤ rest.length := by
  intro rest
  induction rest with
  | nil =>
    intro acc g1 g2 r' h
    exact tryStop_length h
  | cons c r ih =>
    intro acc g1 g2 r' h
    unfold tryIdent at h
    split at h
    · split at h
      case _ res heq =>
        cases h
        have := ih (acc ++ [c]) heq
        simp only [List.length_cons]
        omega
      · have := tryStop_length h
        simpa using this
    · have := tryStop_length h
      simpa using this

theorem matchIdentAt_length {prev l g1 g2 r'}
    (h : matchIdentAt prev l = some (g1, g2, r')) : r'.length < l.length := by
  unfold matchIdentAt at h
  split at h
  case _ c r =>
    split at h
    · have := tryIdent_length _ _ h
      simp only [List.length_cons]
      omega
    · cases h
  · cases h

/-- The substitution scan of re.sub for this pattern: walk the input left to
right; where the pattern matches, emit the replacement (the identifier wrapped
in a notranslate span, followed by the group-2 text unchanged) and resume
right after the match; otherwise copy one character.  `prev` tracks the
character before the current position for the boundary assertions.  The
structural fuel argument makes the definition kernel-reducible; by
`matchIdentAt_length` every step consumes at least one input character, so
fuel equal to the input length (as supplied by `protect_code_identifiers`) is
always enough and the fuel-exhausted branch is unreachable there. -/
def scanSub : Nat → Option Char → List Char → List Char
  | _, _, [] => []
  | 0, _, l => l
  | fuel + 1, prev, c :: r =>
    match matchIdentAt prev (c :: r) with
    | some (g1, g2, r') =>
      spanOpen ++ g1 ++ spanClose ++ g2 ++ scanSub fuel (g2.getLastD ')') r'
    | none => c :: scanSub fuel (some c) r

/-- Embedding of translate.py protect_code_identifiers (lines 111-126): wraps
every identifier that is followed by a parenthesized C or C++ kind in a
notranslate span, leaving the parenthesized kind itself outside the span. -/
def protect_code_identifiers (s : String) : String := ⟨scanSub s.data.length none s.data⟩

/-- Composition verified by the round-trip claim: both protection passes in
the order used by translate_batch_with_retry (code identifiers first, then
terminology), an identity translation stub, then restoration. -/
def roundTrip (text : String) (terminology : List (String × String)) : String :=
  let res := protect_terminology (protect_code_identifiers text) terminology
  unprotect_terminology res.1 res.2

/- ----------------------------------------------------------------- -/
/- C1: protection round trip.                                        -/
/- ----------------------------------------------------------------- -/

theorem protect_terminology_from_of_no_occurrence (text : String) :
    ∀ (terminology : List (String × String)) (i : Nat),
    (∀ p ∈ terminology, strOccurs p.1 text = false) →
    protect_terminology_from i text terminology = (text, []) := by
  intro terminology
  induction terminology with
  | nil => intro i _; rfl
  | cons p rest ih =>
    intro i h
    have hp : strOccurs p.1 text = false := h p (List.mem_cons_self p rest)
    have hrest : ∀ q ∈ rest, strOccurs q.1 text = false :=
      fun q hq => h q (List.mem_cons_of_mem p hq)
    unfold protect_terminology_from
    rw [hp]
    simp only [Bool.false_eq_true, if_false]
    exact ih (i + 1) hrest

/-- C1 (counterexample): the protection round trip with the identity
translation stub does not reproduce the original text: a code-identifier
pattern leaves the protective notranslate span in the final output, because
unprotect_terminology only restores terminology placeholders and nothing
removes the span added by protect_code_identifiers. -/
theorem c1_roundTrip_counterexample :
    roundTrip "mcpwm_init (C++ function)" [] ≠ "mcpwm_init (C++ function)" := by
  decide

/-- C1 (amended): for every input text on which the code-identifier pass
matches nothing and in which no terminology-dictionary term occurs, applying
protect_code_identifiers, then protect_terminology, then an identity
translation stub, then unprotect_terminology reproduces the original text
exactly, and no placeholder token remains in the final output.  (In general
the round trip instead yields the identifier-protected text with each
occurring terminology term replaced by its target-language translation.) -/
theorem c1_roundTrip_amended (text : String) (terminology : List (String × String))
    (h1 : protect_code_identifiers text = text)
    (h2 : ∀ p ∈ terminology, strOccurs p.1 text = false) :
    roundTrip text terminology = text := by
  unfold roundTrip protect_terminology
  rw [h1, protect_terminology_from_of_no_occurrence text terminology 0 h2]
  rfl

theorem c1_roundTrip_amended_witness :
    protect_code_identifiers "Learn about interrupts here." = "Learn about interrupts here." ∧
    (∀ p ∈ [("FreeRTOS", "X"), ("Wi-Fi", "Y")],
      strOccurs p.1 "Learn about interrupts here." = false) ∧
    roundTrip "Learn about interrupts here." [("FreeRTOS", "X"), ("Wi-Fi", "Y")] =
      "Learn about interrupts here." :=
  ⟨by decide, by decide,
    c1_roundTrip_amended "Learn about interrupts here." [("FreeRTOS", "X"), ("Wi-Fi", "Y")]
      (by decide) (by decide)⟩

/- ----------------------------------------------------------------- -/
/- monitor.py: mirrored save-path derivation (lines 63-89).          -/
/- The os.path and urllib.parse helpers used by save_html_file are    -/
/- standard-library collaborators; they are embedded here with POSIX  -/
/- path semantics (os.path.basename, os.path.dirname, os.path.join,   -/
/- str.lstrip) and the path component of urlparse for http(s) URLs.   -/
/- ----------------------------------------------------------------- -/

/-- Python str.lstrip with a slash argument: removes all leading slashes. -/
def lstripSlashes (l : List Char) : List Char := l.dropWhile (fun c => c = '/')

/-- POSIX os.path.basename: everything after the last slash (empty if the
path ends in a slash). -/
def pyBasename (l : List Char) : List Char :=
  (l.reverse.takeWhile (fun c => c != '/')).reverse

/-- POSIX os.path.dirname: everything up to the last slash, with trailing
slashes then removed unless the result would become empty; empty if the path
has no slash at all. -/
def pyDirname (l : List Char) : List Char :=
  if l.contains '/' then
    let headRev := l.reverse.dropWhile (fun c => c != '/')
    let strippedRev := headRev.dropWhile (fun c => c = '/')
    if strippedRev = [] then headRev.reverse else strippedRev.reverse
  else []

/-- POSIX os.path.join for two components: an absolute second component wins;
otherwise the components are concatenated, inserting a slash unless the first
component is empty or already ends in a slash. -/
def pyJoin (a b : List Char) : List Char :=
  if b.head? = some '/' then b
  else if a = [] ∨ a.getLast? = some '/' then a ++ b
  else a ++ '/' :: b

/-- Scans for the first scheme separator of a URL; returns the remainder
after it, or none if the URL has no scheme separator. -/
def afterScheme : List Char → Option (List Char)
  | ':' :: '/' :: '/' :: r => some r
  | _ :: r => afterScheme r
  | [] => none

/-- Models the path component of urllib.parse.urlparse for the URLs handled
by the monitor: the text after the host (from the first slash after the
scheme separator), cut at the first query or fragment delimiter. -/
def urlPathData (url : List Char) : List Char :=
  let p := match afterScheme url with
    | some rest => rest.dropWhile (fun c => c != '/')
    | none => url
  p.takeWhile (fun c => (c != '?') && (c != '#'))

/-- Relative path computed by save_html_file (monitor.py lines 69-74): the
URL path with leading slashes removed, and with the base URL's path part
removed from the front when it is a prefix. -/
def relPathOf (url base_url : List Char) : List Char :=
  let relative_path := lstripSlashes (urlPathData url)
  let base_path_part := lstripSlashes (urlPathData base_url)
  if base_path_part.isPrefixOf relative_path then
    lstripSlashes (relative_path.drop base_path_part.length)
  else relative_path

/-- File name chosen by save_html_file (monitor.py lines 76-82): a fixed
index file name when the relative path is empty or ends in a separator;
otherwise the final path segment, with an html extension synthesized when the
segment contains no dot. -/
def fileNameFor (rel : List Char) : List Char :=
  if rel = [] ∨ rel.getLast? = some '/' then "index.html".data
  else
    let b := pyBasename rel
    if b.contains '.' then b else b ++ ".html".data

/-- Local path computed by save_html_file (monitor.py lines 63-89): the
directory part of the relative path mirrored under the base directory, joined
with the chosen file name. -/
def save_html_path (url base_dir base_url : String) : String :=
  ⟨pyJoin (pyJoin base_dir.data (pyDirname (relPathOf url.data base_url.data)))
    (fileNameFor (relPathOf url.data base_url.data))⟩

/-- Embedding of save_html_file's observable effect: none when the content is
empty (the function returns without writing), otherwise the write of the
content at the computed mirror path. -/
def save_html_file (content : List Char) (url base_dir base_url : String) :
    Option (String × List Char) :=
  if content = [] then none
  else some (save_html_path url base_dir base_url, content)

/- ----------------------------------------------------------------- -/
/- C2: mirrored save-path derivation.                                -/
/- ----------------------------------------------------------------- -/

/-- A relative path that denotes a directory position: empty, or ending in
the path separator. -/
def DirLike (l : List Char) : Prop := l = [] ∨ l.getLast? = some '/'

instance decDirLike (l : List Char) : Decidable (DirLike l) :=
  inferInstanceAs (Decidable (l = [] ∨ l.getLast? = some '/'))

theorem suffix_getLast? {s l : List Char} (h : s <:+ l) (hne : s ≠ []) :
    l.getLast? = s.getLast? := by
  obtain ⟨t, rfl⟩ := h
  exact List.getLast?_append_of_ne_nil t hne

theorem dirLike_lstrip {l : List Char} (h : DirLike l) : DirLike (lstripSlashes l) := by
  by_cases he : lstripSlashes l = []
  · exact Or.inl he
  · right
    have hs : lstripSlashes l <:+ l := List.dropWhile_suffix _
    rcases h with h | h
    · subst h
      simp [lstripSlashes] at he
    · rw [← suffix_getLast? hs he]
      exact h

theorem dirLike_drop {l : List Char} (n : Nat) (h : DirLike l) : DirLike (l.drop n) := by
  by_cases he : l.drop n = []
  · exact Or.inl he
  · right
    have hs : l.drop n <:+ l := List.drop_suffix n l
    rcases h with h | h
    · subst h
      simp at he
    · rw [← suffix_getLast? hs he]
      exact h

theorem dirLike_relPathOf {url base_url : List Char} (h : DirLike (urlPathData url)) :
    DirLike (relPathOf url base_url) := by
  unfold relPathOf
  dsimp only
  split
  · exact dirLike_lstrip (dirLike_drop _ (dirLike_lstrip h))
  · exact dirLike_lstrip h

theorem fileNameFor_dirLike {rel : List Char} (h : DirLike rel) :
    fileNameFor rel = "index.html".data := by
  unfold DirLike at h
  unfold fileNameFor
  rw [if_pos h]

theorem fileNameFor_no_dot {rel : List Char} (h1 : ¬ DirLike rel)
    (h2 : (pyBasename rel).contains '.' = false) :
    fileNameFor rel = pyBasename rel ++ ".html".data := by
  unfold DirLike at h1
  unfold fileNameFor
  rw [if_neg h1]
  simp only [h2, Bool.false_eq_true, if_false]

theorem pyJoin_suffix (a b : List Char) : b <:+ pyJoin a b := by
  unfold pyJoin
  split
  · exact List.suffix_refl b
  · split
    · exact List.suffix_append a b
    · exact ⟨a ++ ['/'], by simp⟩

/-- C2 (counterexample): the claim's example is wrong about where the mirror
places the page: save_html_file strips the base URL's path part from the
front of the URL path, so the URL https site.example/docs/api/ with base
https site.example/docs/ is saved at api/index.html under the mirror root,
not at docs/api/index.html. -/
theorem c2_savePath_counterexample :
    save_html_path "https://site.example/docs/api/" "source_html" "https://site.example/docs/" =
      "source_html/api/index.html" ∧
    save_html_path "https://site.example/docs/api/" "source_html" "https://site.example/docs/" ≠
      "source_html/docs/api/index.html" := by
  constructor
  · decide
  · decide

/-- C2 (amended): the local path mirrors the URL path with the base URL's
path part stripped from the front; a URL path that is empty or ends in the
separator maps to the fixed index file name; a final segment without a dot
gets the html extension synthesized; and the example URL
https site.example/docs/api/ with base https site.example/docs/ maps to
api/index.html under the mirror root. -/
theorem c2_savePath_amended :
    (∀ url base_dir base_url : String, DirLike (urlPathData url.data) →
        "index.html".data <:+ (save_html_path url base_dir base_url).data) ∧
    (∀ url base_dir base_url : String,
        ¬ DirLike (relPathOf url.data base_url.data) →
        (pyBasename (relPathOf url.data base_url.data)).contains '.' = false →
        pyBasename (relPathOf url.data base_url.data) ++ ".html".data <:+
          (save_html_path url base_dir base_url).data) ∧
    save_html_path "https://site.example/docs/api/" "source_html" "https://site.example/docs/" =
      "source_html/api/index.html" := by
  refine ⟨?_, ?_, by decide⟩
  · intro url base_dir base_url h
    have hrel := @dirLike_relPathOf url.data base_url.data h
    unfold save_html_path
    rw [fileNameFor_dirLike hrel]
    exact pyJoin_suffix _ _
  · intro url base_dir base_url h1 h2
    unfold save_html_path
    rw [fileNameFor_no_dot h1 h2]
    exact pyJoin_suffix _ _

theorem c2_savePath_amended_witness :
    (DirLike (urlPathData "https://host.example/a/".data) ∧
      "index.html".data <:+ (save_html_path "https://host.example/a/" "mirror"
        "https://host.example/".data.asString).data) ∧
    (¬ DirLike (relPathOf "https://host.example/a/b".data "https://host.example/a/".data) ∧
      (pyBasename (relPathOf "https://host.example/a/b".data
        "https://host.example/a/".data)).contains '.' = false ∧
      pyBasename (relPathOf "https://host.example/a/b".data "https://host.example/a/".data) ++
          ".html".data <:+
        (save_html_path "https://host.example/a/b" "mirror" "https://host.example/a/").data) :=
  ⟨⟨by decide, c2_savePath_amended.1 "https://host.example/a/" "mirror" _ (by decide)⟩,
   ⟨by decide, by decide,
    c2_savePath_amended.2.1 "https://host.example/a/b" "mirror" "https://host.example/a/"
      (by decide) (by decide)⟩⟩

/- ----------------------------------------------------------------- -/
/- translate.py: span classification (lines 31-33 and 247-254).      -/
/- ----------------------------------------------------------------- -/

/-- Embedding of translate.py TRANSLATABLE_TAGS (line 31). -/
def TRANSLATABLE_TAGS : List String :=
  ["p", "h1", "h2", "h3", "h4", "h5", "h6", "li", "a", "span", "strong", "em",
   "td", "th", "figcaption", "blockquote", "title"]

/-- Embedding of translate.py EXCLUDED_TAGS (line 33). -/
def EXCLUDED_TAGS : List String := ["code", "pre", "script", "style", "kbd"]

/-- Parse-tree model of the markup handled by the translator: an element
with a tag name and an ordered list of children, or a text node (a
NavigableString). -/
inductive HtmlNode where
  | element : String → List HtmlNode → HtmlNode
  | text : String → HtmlNode

/-- Python str.strip on a character list: leading and trailing whitespace
removed. -/
def pyStripData (l : List Char) : List Char :=
  ((l.dropWhile pyIsSpace).reverse.dropWhile pyIsSpace).reverse

/-- Python str.strip at the string level. -/
def pyStrip (s : String) : String := ⟨pyStripData s.data⟩

mutual

/-- Depth-first left-to-right walk collecting every text node of a node
together with its ancestor tag names, innermost (immediate parent) first.
`anc` is the ancestry of the node itself. -/
def collectTexts (anc : List String) : HtmlNode → List (String × List String)
  | .text s => [(s, anc)]
  | .element tag cs => collectTextsList (tag :: anc) cs

/-- Walk of a list of siblings in document order. -/
def collectTextsList (anc : List String) : List HtmlNode → List (String × List String)
  | [] => []
  | n :: ns => collectTexts anc n ++ collectTextsList anc ns

end

/-- find_all with string argument on a soup: all text nodes of the parsed
document in document order, each with its ancestor tags up to and including
the BeautifulSoup document root, whose name is the bracketed document name.
The soup is modelled by its list of top-level nodes. -/
def soup_find_all_strings (soup : List HtmlNode) : List (String × List String) :=
  collectTextsList ["[document]"] soup

/-- The per-node filter of translate_soup_content (translate.py lines
249-254): the text node has a parent (in this model the ancestry is never
empty below the root, and the match guards the degenerate case), the
parent's tag is in the allow list, no ancestor up to the root is in the deny
list, and the text is non-empty after stripping whitespace. -/
def node_filter (t : String × List String) : Bool :=
  match t.2 with
  | [] => false
  | parent :: _ =>
    decide (parent ∈ TRANSLATABLE_TAGS) &&
    t.2.all (fun p => decide (p ∉ EXCLUDED_TAGS)) &&
    decide ((pyStrip t.1).data ≠ [])

/-- The translatable nodes selected by translate_soup_content, in the order
find_all produces them (document order). -/
def translatable_nodes (soup : List HtmlNode) : List (String × List String) :=
  (soup_find_all_strings soup).filter node_filter

/-- Span-classification predicate written from the specification text: the
immediate structural parent's tag is in the translate allow list, no
ancestor up to the root has a tag in the deny list, and the text is
non-empty after trimming leading and trailing whitespace. -/
def SpecTranslatable (text : String) (ancestors : List String) : Prop :=
  (∃ parent rest, ancestors = parent :: rest ∧ parent ∈ TRANSLATABLE_TAGS) ∧
  (∀ a ∈ ancestors, a ∉ EXCLUDED_TAGS) ∧
  (∃ c ∈ text.data, pyIsSpace c = false)

theorem dropWhile_all_iff (p : Char → Bool) (l : List Char) :
    (∀ c ∈ l.dropWhile p, p c = true) ↔ (∀ c ∈ l, p c = true) := by
  constructor
  · intro h c hc
    rw [← @List.takeWhile_append_dropWhile _ p l] at hc
    rcases List.mem_append.1 hc with hc | hc
    · exact List.mem_takeWhile_imp hc
    · exact h c hc
  · intro h c hc
    exact h c ((List.dropWhile_sublist _).mem hc)

theorem pyStripData_eq_nil_iff (l : List Char) :
    pyStripData l = [] ↔ ∀ c ∈ l, pyIsSpace c = true := by
  unfold pyStripData
  rw [List.reverse_eq_nil_iff, List.dropWhile_eq_nil_iff]
  constructor
  · intro h
    rw [← dropWhile_all_iff pyIsSpace]
    intro c hc
    exact h c (List.mem_reverse.2 hc)
  · intro h c hc
    exact (dropWhile_all_iff pyIsSpace l).2 h c (List.mem_reverse.1 hc)

theorem node_filter_iff (t : String × List String) :
    node_filter t = true ↔ SpecTranslatable t.1 t.2 := by
  obtain ⟨text, anc⟩ := t
  unfold node_filter SpecTranslatable
  match anc with
  | [] => simp
  | parent :: rest =>
    simp only [Bool.and_eq_true, List.all_eq_true, decide_eq_true_eq]
    constructor
    · rintro ⟨⟨hp, hall⟩, hne⟩
      refine ⟨⟨parent, rest, rfl, hp⟩, hall, ?_⟩
      by_contra hno
      push_neg at hno
      apply hne
      show pyStripData text.data = []
      rw [pyStripData_eq_nil_iff]
      intro c hc
      have h2 := hno c hc
      simpa using h2
    · rintro ⟨⟨p, r, heq, hp⟩, hall, hc⟩
      injection heq with h1 h2
      subst h1
      refine ⟨⟨hp, hall⟩, ?_⟩
      show ¬ pyStripData text.data = []
      rw [pyStripData_eq_nil_iff]
      intro hforall
      obtain ⟨c, hcmem, hcfalse⟩ := hc
      rw [hforall c hcmem] at hcfalse
      cases hcfalse

/-- C9: a text node is selected as translatable iff its immediate parent's
tag is in the allow list, no ancestor up to the root is in the deny list,
and its text is non-empty after trimming whitespace; and the selection is
returned in document order (a sublist of the document-order text-node
walk). -/
theorem c9_span_classification (soup : List HtmlNode) (t : String × List String) :
    (t ∈ translatable_nodes soup ↔
      t ∈ soup_find_all_strings soup ∧ SpecTranslatable t.1 t.2) ∧
    (translatable_nodes soup).Sublist (soup_find_all_strings soup) := by
  constructor
  · rw [translatable_nodes, List.mem_filter, node_filter_iff]
  · exact List.filter_sublist _

/- ----------------------------------------------------------------- -/
/- translate.py: batched translation with retry (lines 129-174).     -/
/- The provider is an oracle mapping the attempt index and the        -/
/- protected batch to a translated batch or a transient error (none); -/
/- sleeps are recorded as a delay trace for verifying the backoff.    -/
/- ----------------------------------------------------------------- -/

/-- Result of one batch call: the returned texts, the character count
reported for the batch, and the backoff delays slept (in seconds), recorded
for verification of the retry policy. -/
structure BatchResult where
  texts : List String
  chars : Nat
  delays : List Nat
deriving DecidableEq

/-- The protected batch submitted to the provider: every input text after
the code-identifier pass and the terminology pass (translate.py lines
138-144). -/
def protectedBatch (texts : List String) (terminology : List (String × String)) :
    List String :=
  (texts.map (fun t => protect_terminology (protect_code_identifiers t) terminology)).map
    Prod.fst

/-- The placeholder records of the protected batch, one per input text. -/
def placeholdersOfBatch (texts : List String) (terminology : List (String × String)) :
    List (List (String × String)) :=
  (texts.map (fun t => protect_terminology (protect_code_identifiers t) terminology)).map
    Prod.snd

/-- The retry loop of translate_batch_with_retry (lines 147-174): attempts
the provider call for the given number of remaining attempts; on success
restores the placeholders of each span (the provider contract returns one
result per input, modelled by the positional zip) and reports the protected
character count; on a transient failure sleeps 5 * (attempt + 1) seconds
(recorded in the delay trace) and tries again; when every attempt has
failed, returns the original input texts with a zero character count. -/
def retryLoop (client : Nat → List String → Option (List String))
    (texts protected_texts : List String)
    (placeholders_list : List (List (String × String)))
    (total_char_count : Nat) : Nat → Nat → List Nat → BatchResult
  | 0, _, delays => ⟨texts, 0, delays⟩
  | fuel + 1, attempt, delays =>
    match client attempt protected_texts with
    | some results =>
      ⟨(results.zip placeholders_list).map (fun rp => unprotect_terminology rp.1 rp.2),
       total_char_count, delays⟩
    | none =>
      retryLoop client texts protected_texts placeholders_list total_char_count
        fuel (attempt + 1) (delays ++ [5 * (attempt + 1)])

/-- Embedding of translate_batch_with_retry (translate.py lines 129-174):
an empty batch returns immediately with a zero count and no provider call;
otherwise the batch is protected, submitted with up to 3 attempts and linear
backoff, and on exhaustion the original texts are returned with a zero
count (the run continues; the failure is only logged). -/
def translate_batch_with_retry (client : Nat → List String → Option (List String))
    (texts : List String) (terminology : List (String × String)) : BatchResult :=
  if texts = [] then ⟨[], 0, []⟩
  else
    retryLoop client texts (protectedBatch texts terminology)
      (placeholdersOfBatch texts terminology)
      ((protectedBatch texts terminology).map String.length).sum 3 0 []

/-- C4: for every non-empty batch whose provider call fails with a transient
error on every attempt, translate_batch_with_retry retries up to the ceiling
of 3 attempts, sleeping the linear backoff delays of 5, 10 and 15 seconds
(base 5 times the one-based attempt number), then returns the original
untranslated input texts unchanged with a consumed-character count of zero;
the failure is only logged and the run is not aborted. -/
theorem c4_retry_exhaustion (client : Nat → List String → Option (List String))
    (texts : List String) (terminology : List (String × String))
    (hne : texts ≠ [])
    (hfail : ∀ a, a < 3 → client a (protectedBatch texts terminology) = none) :
    translate_batch_with_retry client texts terminology = ⟨texts, 0, [5, 10, 15]⟩ := by
  unfold translate_batch_with_retry
  rw [if_neg hne]
  unfold retryLoop
  rw [hfail 0 (by omega)]
  unfold retryLoop
  rw [hfail 1 (by omega)]
  unfold retryLoop
  rw [hfail 2 (by omega)]
  rfl

theorem c4_retry_exhaustion_witness :
    (["Hello world"] : List String) ≠ [] ∧
    translate_batch_with_retry (fun _ _ => none) ["Hello world"] [("FreeRTOS", "X")] =
      ⟨["Hello world"], 0, [5, 10, 15]⟩ :=
  ⟨by simp,
   c4_retry_exhaustion (fun _ _ => none) ["Hello world"] [("FreeRTOS", "X")]
     (by simp) (fun a _ => rfl)⟩

/- ----------------------------------------------------------------- -/
/- translate.py: soup translation with the shared character budget   -/
/- (lines 241-275) and the resumable main loop (lines 290-367).      -/
/- ----------------------------------------------------------------- -/

/-- Embedding of translate.py BATCH_SIZE (line 244). -/
def BATCH_SIZE : Nat := 128

/-- Embedding of translate.py CHAR_LIMIT_PER_MONTH (line 28). -/
def CHAR_LIMIT_PER_MONTH : Nat := 999999999

/-- Splits a list into consecutive chunks of `n` elements (the final chunk
may be shorter), as the range-with-step slicing loop of
translate_soup_content does.  The structural fuel argument makes the
definition kernel-reducible; for positive `n` every step consumes at least
one element, so fuel equal to the list length (as supplied by `chunkList`)
is always enough and the fuel-exhausted branch is unreachable there. -/
def chunkFuel {α : Type} (n : Nat) : Nat → List α → List (List α)
  | _, [] => []
  | 0, l => [l]
  | fuel + 1, l => l.take n :: chunkFuel n fuel (l.drop n)

/-- The batches of the given size, in order. -/
def chunkList {α : Type} (n : Nat) (l : List α) : List (List α) :=
  chunkFuel n l.length l

/-- The batch loop of translate_soup_content (lines 257-270): processes the
batches in order; before each batch the shared character counter is compared
against the monthly limit and the loop breaks once the limit is reached,
leaving every remaining node text untouched; otherwise the batch is
translated with retry and the counter advances by the consumed characters.
Returns the output node texts in order, the final counter, and the
characters consumed for this document. -/
def processBatches (client : Nat → List String → Option (List String))
    (terminology : List (String × String)) (charLimit : Nat) :
    List (List String) → Nat → List String × Nat × Nat
  | [], tracker => ([], tracker, 0)
  | b :: bs, tracker =>
    if charLimit ≤ tracker then ((b :: bs).flatten, tracker, 0)
    else
      let r := translate_batch_with_retry client b terminology
      let rest := processBatches client terminology charLimit bs (tracker + r.chars)
      (r.texts ++ rest.1, rest.2.1, r.chars + rest.2.2)

mutual

/-- Writes the output texts back into the document: each text node that the
node filter selects receives the next output text in document order, every
other node is untouched.  Since every selected node is replaced exactly once
and the batches are disjoint, performing all replacements in one final walk
is equivalent to the source's in-place replacement at the end of each batch. -/
def applyTexts (anc : List String) : HtmlNode → List String → HtmlNode × List String
  | .text s, ts =>
    if node_filter (s, anc) then
      match ts with
      | t :: rest => (.text t, rest)
      | [] => (.text s, [])
    else (.text s, ts)
  | .element tag cs, ts =>
    let res := applyTextsList (tag :: anc) cs ts
    (.element tag res.1, res.2)

/-- Write-back walk over a list of siblings, threading the output texts. -/
def applyTextsList (anc : List String) : List HtmlNode → List String →
    List HtmlNode × List String
  | [], ts => ([], ts)
  | n :: ns, ts =>
    let r1 := applyTexts anc n ts
    let r2 := applyTextsList anc ns r1.2
    (r1.1 :: r2.1, r2.2)

end

/-- Embedding of translate_soup_content (translate.py lines 241-275):
selects the translatable text nodes in document order, batches their texts
BATCH_SIZE at a time, translates batch by batch against the shared character
counter, and replaces each selected node's text positionally.  Returns the
updated soup, the final counter and the characters consumed. -/
def translate_soup_content (client : Nat → List String → Option (List String))
    (terminology : List (String × String)) (charLimit : Nat)
    (soup : List HtmlNode) (tracker : Nat) : List HtmlNode × Nat × Nat :=
  let res := processBatches client terminology charLimit
    (chunkList BATCH_SIZE ((translatable_nodes soup).map Prod.fst)) tracker
  ((applyTextsList ["[document]"] soup res.1).1, res.2.1, res.2.2)

/-- Per-run oracles for the main loop: whether reading and parsing a file
raises (none) or yields a parsed soup; whether an exception inside
translate_soup_content makes it return None for a file; whether writing the
output for a file raises inside write_translated_file; and the shared
provider oracle. -/
structure FileEnv where
  read : String → Option (List HtmlNode)
  translateExn : String → Bool
  writeOk : String → Bool
  client : Nat → List String → Option (List String)

/-- Observable state of one translator run: the processed-file set, the
shared character counter, the output files written with their documents, and
the successively persisted snapshots of the processed set (most recent
first). -/
structure RunState where
  processed : List String
  tracker : Nat
  written : List (String × List HtmlNode)
  savedStates : List (List String)

/-- The resumability filter of main (translate.py line 307): the files to
process are all discovered files not in the processed set. -/
def files_to_process (all_html_files : List String) (processed_files : List String) :
    List String :=
  all_html_files.filter (fun f => decide (f ∉ processed_files))

/-- One iteration of the main loop body (translate.py lines 318-363): read
and parse the file (on an exception the loop logs and continues with the
state unchanged); translate (an internal exception makes
translate_soup_content return None and the loop continues); write the
translated file — write_translated_file catches and only logs its own
exceptions, so a write failure determines whether output appears but cannot
interrupt the step; then add the file to the processed set and persist the
snapshot immediately. -/
def stepFile (env : FileEnv) (terminology : List (String × String)) (charLimit : Nat)
    (f : String) (s : RunState) : RunState :=
  match env.read f with
  | none => s
  | some soup =>
    if env.translateExn f then s
    else
      let res := translate_soup_content env.client terminology charLimit soup s.tracker
      { processed := f :: s.processed
        tracker := res.2.1
        written := if env.writeOk f then (f, res.1) :: s.written else s.written
        savedStates := (f :: s.processed) :: s.savedStates }

/-- The main loop of translate.py over the files left to process: at the top
of each iteration the run stops entirely once the shared character counter
has reached the monthly limit; otherwise one file step runs and the loop
continues with the next file. -/
def processFiles (env : FileEnv) (terminology : List (String × String))
    (charLimit : Nat) : List String → RunState → RunState
  | [], s => s
  | f :: fs, s =>
    if charLimit ≤ s.tracker then s
    else processFiles env terminology charLimit fs (stepFile env terminology charLimit f s)

/-- A full translator run (translate.py main): filter out the already
processed files, then loop over the remainder starting from the persisted
processed set and a zero character counter. -/
def runTranslator (env : FileEnv) (terminology : List (String × String))
    (charLimit : Nat) (all_html_files : List String) (processed0 : List String) :
    RunState :=
  processFiles env terminology charLimit (files_to_process all_html_files processed0)
    ⟨processed0, 0, [], []⟩

/- ----------------------------------------------------------------- -/
/- C3: per-file error containment.                                   -/
/- ----------------------------------------------------------------- -/

/-- C3 (code evaluated at the failing input): a file whose read and
translation succeed but whose output write raises is nevertheless added to
the ProcessedFileSet, because write_translated_file catches and only logs
its own exception (translate.py lines 277-286) and main then unconditionally
marks the file processed (lines 353-355); no output exists for the file, yet
a later run will skip it.  Read and parse errors do behave as the claim
says: the third conjunct shows a failing read leaves the processed set
empty and the run continues. -/
theorem c3_write_error_file_marked_processed :
    (runTranslator
      { read := fun _ => some [HtmlNode.element "p" [HtmlNode.text "Hi"]],
        translateExn := fun _ => false,
        writeOk := fun _ => false,
        client := fun _ _ => none }
      [] CHAR_LIMIT_PER_MONTH ["a.html"] []).processed = ["a.html"] ∧
    (runTranslator
      { read := fun _ => some [HtmlNode.element "p" [HtmlNode.text "Hi"]],
        translateExn := fun _ => false,
        writeOk := fun _ => false,
        client := fun _ _ => none }
      [] CHAR_LIMIT_PER_MONTH ["a.html"] []).written = [] ∧
    (runTranslator
      { read := fun _ => none,
        translateExn := fun _ => false,
        writeOk := fun _ => true,
        client := fun _ _ => none }
      [] CHAR_LIMIT_PER_MONTH ["a.html"] []).processed = [] :=
  ⟨rfl, rfl, rfl⟩

/- ----------------------------------------------------------------- -/
/- C7: resumability.                                                 -/
/- ----------------------------------------------------------------- -/

theorem filter_split_length (P all : List String) :
    (all.filter (fun f => decide (f ∉ P))).length +
      (all.filter (fun f => decide (f ∈ P))).length = all.length := by
  induction all with
  | nil => rfl
  | cons a l ih =>
    by_cases h : a ∈ P <;> simp [List.filter_cons, h] at ih ⊢ <;> omega

theorem filter_mem_length {P all : List String}
    (hP : P.Nodup) (hall : all.Nodup) (hsub : ∀ p ∈ P, p ∈ all) :
    (all.filter (fun f => decide (f ∈ P))).length = P.length := by
  have hperm : List.Perm (all.filter (fun f => decide (f ∈ P))) P := by
    rw [List.perm_ext_iff_of_nodup (hall.filter _) hP]
    intro a
    simp only [List.mem_filter, decide_eq_true_eq]
    exact ⟨fun h => h.2, fun h => ⟨hsub a h, h⟩⟩
  exact hperm.length_eq

/-- C7: a file already in the ProcessedFileSet at run start is excluded by
the resumability filter, so it is never read or re-translated; after each
completed file the enlarged processed set is persisted immediately (the new
snapshot, containing the file, heads the persisted-state trace); and the
files a later run processes are exactly the discovered files outside the
persisted set — when N of M distinct discovered files are marked processed,
exactly M - N files remain. -/
theorem c7_resumability :
    (∀ (all processed : List String) (f : String),
        f ∈ processed → f ∉ files_to_process all processed) ∧
    (∀ (env : FileEnv) (terminology : List (String × String)) (charLimit : Nat)
        (f : String) (s : RunState) (soup : List HtmlNode),
        env.read f = some soup → env.translateExn f = false →
        (stepFile env terminology charLimit f s).processed = f :: s.processed ∧
        (stepFile env terminology charLimit f s).savedStates =
          (f :: s.processed) :: s.savedStates) ∧
    (∀ (all processed : List String), processed.Nodup → all.Nodup →
        (∀ p ∈ processed, p ∈ all) →
        (∀ f, f ∈ files_to_process all processed ↔ f ∈ all ∧ f ∉ processed) ∧
        (files_to_process all processed).length = all.length - processed.length) := by
  refine ⟨?_, ?_, ?_⟩
  · intro all processed f hf hmem
    rw [files_to_process, List.mem_filter] at hmem
    simp only [decide_eq_true_eq] at hmem
    exact hmem.2 hf
  · intro env terminology charLimit f s soup hread hexn
    unfold stepFile
    rw [hread]
    simp [hexn]
  · intro all processed hP hall hsub
    constructor
    · intro f
      rw [files_to_process, List.mem_filter]
      simp
    · have h1 := filter_split_length processed all
      have h2 := filter_mem_length hP hall hsub
      rw [files_to_process]
      omega

theorem c7_resumability_witness :
    ("a.html" ∉ files_to_process ["a.html", "b.html"] ["a.html"]) ∧
    ((stepFile
        { read := fun _ => some [], translateExn := fun _ => false,
          writeOk := fun _ => true, client := fun _ _ => none }
        [] 9 "a.html" ⟨[], 0, [], []⟩).processed = ["a.html"] ∧
      (stepFile
        { read := fun _ => some [], translateExn := fun _ => false,
          writeOk := fun _ => true, client := fun _ _ => none }
        [] 9 "a.html" ⟨[], 0, [], []⟩).savedStates = [["a.html"]]) ∧
    ((∀ f, f ∈ files_to_process ["a.html", "b.html"] ["a.html"] ↔
        f ∈ ["a.html", "b.html"] ∧ f ∉ ["a.html"]) ∧
      (files_to_process ["a.html", "b.html"] ["a.html"]).length = 1) :=
  ⟨c7_resumability.1 ["a.html", "b.html"] ["a.html"] "a.html" (by decide),
   by
    have h := c7_resumability.2.1
      { read := fun _ => some [], translateExn := fun _ => false,
        writeOk := fun _ => true, client := fun _ _ => none }
      [] 9 "a.html" ⟨[], 0, [], []⟩ [] rfl rfl
    simpa using h,
   by
    have h := c7_resumability.2.2 ["a.html", "b.html"] ["a.html"]
      (by decide) (by decide) (by decide)
    simpa using h⟩

/- ----------------------------------------------------------------- -/
/- C10: character budget reached in the middle of a file.            -/
/- ----------------------------------------------------------------- -/

/-- C10: once the shared character counter has reached the limit, every
remaining batch of the file is left untranslated with zero consumed
characters (the loop breaks before submitting them); a file whose read and
translation succeed is nevertheless written with whatever translation
happened and is added to the processed set; a processed file is excluded
from any later run's worklist, so its untranslated spans are never
translated; and concretely, with a limit of one character the second of two
batches keeps its original text while the file's output is still produced. -/
theorem c10_budget_mid_file :
    (∀ (client : Nat → List String → Option (List String))
        (terminology : List (String × String)) (charLimit : Nat)
        (b : List String) (bs : List (List String)) (tracker : Nat),
        charLimit ≤ tracker →
        processBatches client terminology charLimit (b :: bs) tracker =
          ((b :: bs).flatten, tracker, 0)) ∧
    (∀ (env : FileEnv) (terminology : List (String × String)) (charLimit : Nat)
        (f : String) (s : RunState) (soup : List HtmlNode),
        env.read f = some soup → env.translateExn f = false → env.writeOk f = true →
        (stepFile env terminology charLimit f s).processed = f :: s.processed ∧
        (stepFile env terminology charLimit f s).written =
          (f, (translate_soup_content env.client terminology charLimit soup s.tracker).1)
            :: s.written) ∧
    (∀ (all processed : List String) (f : String),
        f ∈ processed → f ∉ files_to_process all processed) ∧
    processBatches (fun _ _ => some ["A"]) [] 1 [["a"], ["b"]] 0 = (["A", "b"], 1, 1) := by
  refine ⟨?_, ?_, ?_, rfl⟩
  · intro client terminology charLimit b bs tracker h
    unfold processBatches
    rw [if_pos h]
  · intro env terminology charLimit f s soup hread hexn hw
    unfold stepFile
    rw [hread]
    simp [hexn, hw]
  · intro all processed f hf hmem
    rw [files_to_process, List.mem_filter] at hmem
    simp only [decide_eq_true_eq] at hmem
    exact hmem.2 hf

theorem c10_budget_mid_file_witness :
    processBatches (fun _ _ => none) [] 5 [["x"]] 7 = (["x"], 7, 0) ∧
    ((stepFile
        { read := fun _ => some [HtmlNode.text "t"], translateExn := fun _ => false,
          writeOk := fun _ => true, client := fun _ _ => none }
        [] 0 "f.html" ⟨[], 0, [], []⟩).processed = ["f.html"] ∧
      (stepFile
        { read := fun _ => some [HtmlNode.text "t"], translateExn := fun _ => false,
          writeOk := fun _ => true, client := fun _ _ => none }
        [] 0 "f.html" ⟨[], 0, [], []⟩).written = [("f.html", [HtmlNode.text "t"])]) ∧
    ("f.html" ∉ files_to_process ["f.html"] ["f.html"]) :=
  ⟨by
    have h := c10_budget_mid_file.1 (fun _ _ => none) [] 5 ["x"] [] 7 (by omega)
    simpa using h,
   by
    have h := c10_budget_mid_file.2.1
      { read := fun _ => some [HtmlNode.text "t"], translateExn := fun _ => false,
        writeOk := fun _ => true, client := fun _ _ => none }
      [] 0 "f.html" ⟨[], 0, [], []⟩ [HtmlNode.text "t"] rfl rfl rfl
    simpa using h,
   c10_budget_mid_file.2.2.1 ["f.html"] ["f.html"] "f.html" (by decide)⟩

/- ----------------------------------------------------------------- -/
/- monitor.py: change detection over the discovered URLs             -/
/- (lines 122-142), with fetch and digest as oracles.                -/
/- ----------------------------------------------------------------- -/

/-- Embedding of monitor.py BASE_URL (line 11). -/
def BASE_URL : String := "https://docs.espressif.com/projects/esp-idf/en/latest/"

/-- Embedding of monitor.py SOURCE_DIR (line 13). -/
def SOURCE_DIR : String := "source_html"

/-- Observable outcome of the update-check pass of monitor.py main: the
rebuilt fingerprint map (in processing order), the changed-or-new URLs in
processing order, the lines written to the changed-URL log, and the
save_html_file calls made, as pairs of URL and content. -/
structure UpdateCheckResult where
  current_hashes : List (String × String)
  updated_or_new_urls : List String
  log_lines : List String
  saveCalls : List (String × List Char)

/-- The update-check loop body (monitor.py lines 129-142) over an already
ordered URL list: a URL whose fetch fails is skipped entirely; otherwise its
digest is recorded in the rebuilt fingerprint map, and exactly when the
previous map's entry differs from the digest (including a missing entry) the
URL is appended to the changed list, a log line is written and the content
is saved. -/
def updateCheckLoop (fetch : String → Option (List Char)) (digest : List Char → String)
    (previous : List (String × String)) : List String → UpdateCheckResult
  | [] => ⟨[], [], [], []⟩
  | url :: rest =>
    match fetch url with
    | none => updateCheckLoop fetch digest previous rest
    | some content =>
      let h := digest content
      let r := updateCheckLoop fetch digest previous rest
      if previous.lookup url ≠ some h then
        ⟨(url, h) :: r.current_hashes, url :: r.updated_or_new_urls,
         url :: r.log_lines, (url, content) :: r.saveCalls⟩
      else
        ⟨(url, h) :: r.current_hashes, r.updated_or_new_urls, r.log_lines, r.saveCalls⟩

/-- Embedding of the update-check pass of monitor.py main (lines 122-142):
the discovered URLs are processed in sorted order.  The fetch of
get_page_content_and_hash is an oracle returning the page content or a
request failure; the content digest (sha256 hex, an external library) is an
oracle as well. -/
def update_check (fetch : String → Option (List Char)) (digest : List Char → String)
    (previous : List (String × String)) (all_links : List String) : UpdateCheckResult :=
  updateCheckLoop fetch digest previous (all_links.insertionSort (· ≤ ·))

theorem updateCheckLoop_cons_none (fetch : String → Option (List Char))
    (digest : List Char → String) (previous : List (String × String))
    (url : String) (rest : List String) (h : fetch url = none) :
    updateCheckLoop fetch digest previous (url :: rest) =
      updateCheckLoop fetch digest previous rest := by
  conv_lhs => rw [updateCheckLoop]
  rw [h]

theorem updateCheckLoop_cons_changed (fetch : String → Option (List Char))
    (digest : List Char → String) (previous : List (String × String))
    (url : String) (rest : List String) (content : List Char)
    (h : fetch url = some content)
    (hc : previous.lookup url ≠ some (digest content)) :
    updateCheckLoop fetch digest previous (url :: rest) =
      ⟨(url, digest content) :: (updateCheckLoop fetch digest previous rest).current_hashes,
       url :: (updateCheckLoop fetch digest previous rest).updated_or_new_urls,
       url :: (updateCheckLoop fetch digest previous rest).log_lines,
       (url, content) :: (updateCheckLoop fetch digest previous rest).saveCalls⟩ := by
  conv_lhs => rw [updateCheckLoop]
  rw [h]
  dsimp only
  rw [if_pos hc]

theorem updateCheckLoop_cons_unchanged (fetch : String → Option (List Char))
    (digest : List Char → String) (previous : List (String × String))
    (url : String) (rest : List String) (content : List Char)
    (h : fetch url = some content)
    (hc : ¬ previous.lookup url ≠ some (digest content)) :
    updateCheckLoop fetch digest previous (url :: rest) =
      ⟨(url, digest content) :: (updateCheckLoop fetch digest previous rest).current_hashes,
       (updateCheckLoop fetch digest previous rest).updated_or_new_urls,
       (updateCheckLoop fetch digest previous rest).log_lines,
       (updateCheckLoop fetch digest previous rest).saveCalls⟩ := by
  conv_lhs => rw [updateCheckLoop]
  rw [h]
  dsimp only
  rw [if_neg hc]

theorem updateCheckLoop_updated_subset (fetch : String → Option (List Char))
    (digest : List Char → String) (previous : List (String × String)) :
    ∀ (L : List String) (u : String),
      u ∈ (updateCheckLoop fetch digest previous L).updated_or_new_urls → u ∈ L := by
  intro L
  induction L with
  | nil => intro u h; cases h
  | cons url rest ih =>
    intro u h
    cases hfu : fetch url with
    | none =>
      rw [updateCheckLoop_cons_none fetch digest previous url rest hfu] at h
      exact List.mem_cons_of_mem url (ih u h)
    | some c2 =>
      by_cases hcond : previous.lookup url ≠ some (digest c2)
      · rw [updateCheckLoop_cons_changed fetch digest previous url rest c2 hfu hcond] at h
        rcases List.mem_cons.1 h with h | h
        · exact h ▸ List.mem_cons_self url rest
        · exact List.mem_cons_of_mem url (ih u h)
      · rw [updateCheckLoop_cons_unchanged fetch digest previous url rest c2 hfu hcond] at h
        exact List.mem_cons_of_mem url (ih u h)

theorem updateCheckLoop_classification (fetch : String → Option (List Char))
    (digest : List Char → String) (previous : List (String × String)) :
    ∀ (L : List String) (u : String) (content : List Char),
      u ∈ L → fetch u = some content →
      (u ∈ (updateCheckLoop fetch digest previous L).updated_or_new_urls ↔
        previous.lookup u ≠ some (digest content)) := by
  intro L
  induction L with
  | nil => intro u content h; cases h
  | cons url rest ih =>
    intro u content hmem hfetch
    by_cases hequ : u = url
    · subst hequ
      by_cases hcond : previous.lookup u ≠ some (digest content)
      · rw [updateCheckLoop_cons_changed fetch digest previous u rest content hfetch hcond]
        simp only [List.mem_cons]
        exact ⟨fun _ => hcond, fun _ => Or.inl trivial⟩
      · rw [updateCheckLoop_cons_unchanged fetch digest previous u rest content hfetch hcond]
        constructor
        · intro hin
          have hsub := updateCheckLoop_updated_subset fetch digest previous rest u hin
          exact absurd ((ih u content hsub hfetch).1 hin) hcond
        · intro hc
          exact absurd hc hcond
    · have hm : u ∈ rest := by
        rcases List.mem_cons.1 hmem with h | h
        · exact absurd h hequ
        · exact h
      have hrest := ih u content hm hfetch
      cases hfu : fetch url with
      | none =>
        rw [updateCheckLoop_cons_none fetch digest previous url rest hfu]
        exact hrest
      | some c2 =>
        by_cases hcond : previous.lookup url ≠ some (digest c2)
        · rw [updateCheckLoop_cons_changed fetch digest previous url rest c2 hfu hcond]
          simp only [List.mem_cons]
          constructor
          · rintro (h | h)
            · exact absurd h hequ
            · exact hrest.1 h
          · intro hc
            exact Or.inr (hrest.2 hc)
        · rw [updateCheckLoop_cons_unchanged fetch digest previous url rest c2 hfu hcond]
          exact hrest

/-- C5: the discovered URLs are processed in a fixed deterministic order —
any two runs over the same URL set (in any order) produce identical results,
because the set is sorted first — and a successfully fetched URL is
classified changed-or-new exactly when the previous fingerprint map's entry
for it differs from the digest of its current content, a missing entry
always counting as different. -/
theorem c5_change_classification :
    (∀ (fetch : String → Option (List Char)) (digest : List Char → String)
        (previous : List (String × String)) (l1 l2 : List String),
        List.Perm l1 l2 →
        update_check fetch digest previous l1 = update_check fetch digest previous l2) ∧
    (∀ (fetch : String → Option (List Char)) (digest : List Char → String)
        (previous : List (String × String)) (urls : List String)
        (u : String) (content : List Char),
        u ∈ urls → fetch u = some content →
        (u ∈ (update_check fetch digest previous urls).updated_or_new_urls ↔
          previous.lookup u ≠ some (digest content))) := by
  constructor
  · intro fetch digest previous l1 l2 hperm
    unfold update_check
    congr 1
    refine List.eq_of_perm_of_sorted ?_ (List.sorted_insertionSort _ l1)
      (List.sorted_insertionSort _ l2)
    exact ((List.perm_insertionSort _ l1).trans hperm).trans
      (List.perm_insertionSort _ l2).symm
  · intro fetch digest previous urls u content hmem hfetch
    exact updateCheckLoop_classification fetch digest previous _ u content
      ((List.perm_insertionSort _ urls).mem_iff.2 hmem) hfetch

theorem c5_change_classification_witness :
    update_check (fun _ => some ['x']) (fun _ => "h") [] ["b", "a"] =
      update_check (fun _ => some ['x']) (fun _ => "h") [] ["a", "b"] ∧
    ("a" ∈ (["a"] : List String) ∧
      (fun u => if u = "a" then some ['x'] else none) "a" = some ['x'] ∧
      "a" ∈ (update_check (fun u => if u = "a" then some ['x'] else none)
        (fun _ => "h") [] ["a"]).updated_or_new_urls) :=
  ⟨c5_change_classification.1 (fun _ => some ['x']) (fun _ => "h") [] ["b", "a"] ["a", "b"]
    (by decide),
   ⟨by decide, by decide,
    (c5_change_classification.2 (fun u => if u = "a" then some ['x'] else none)
      (fun _ => "h") [] ["a"] "a" ['x'] (by decide) (by decide)).2 (by decide)⟩⟩

/-- C6: a discovered URL whose fetch fails is skipped atomically: it appears
neither in the changed-or-new list nor among the keys of the rebuilt
fingerprint map (its previous digest, if any, is dropped), no save call is
made for it, and no line for it is written to the changed-URL log. -/
theorem c6_fetch_failure_skip (fetch : String → Option (List Char))
    (digest : List Char → String) (previous : List (String × String))
    (urls : List String) (u : String) (hfail : fetch u = none) :
    u ∉ (update_check fetch digest previous urls).updated_or_new_urls ∧
    (update_check fetch digest previous urls).current_hashes.lookup u = none ∧
    (∀ e ∈ (update_check fetch digest previous urls).saveCalls, e.1 ≠ u) ∧
    u ∉ (update_check fetch digest previous urls).log_lines := by
  unfold update_check
  generalize urls.insertionSort (· ≤ ·) = L
  induction L with
  | nil =>
    refine ⟨List.not_mem_nil u, rfl, ?_, List.not_mem_nil u⟩
    intro e he
    cases he
  | cons url rest ih =>
    obtain ⟨ih1, ih2, ih3, ih4⟩ := ih
    by_cases hequ : url = u
    · subst hequ
      rw [updateCheckLoop_cons_none fetch digest previous url rest hfail]
      exact ⟨ih1, ih2, ih3, ih4⟩
    · cases hfu : fetch url with
      | none =>
        rw [updateCheckLoop_cons_none fetch digest previous url rest hfu]
        exact ⟨ih1, ih2, ih3, ih4⟩
      | some c2 =>
        have hbeq : (u == url) = false := beq_eq_false_iff_ne.2 (fun h => hequ h.symm)
        have hlook : List.lookup u ((url, digest c2) ::
            (updateCheckLoop fetch digest previous rest).current_hashes) = none := by
          rw [List.lookup_cons, hbeq]
          exact ih2
        by_cases hcond : previous.lookup url ≠ some (digest c2)
        · rw [updateCheckLoop_cons_changed fetch digest previous url rest c2 hfu hcond]
          refine ⟨?_, hlook, ?_, ?_⟩
          · intro hin
            rcases List.mem_cons.1 hin with h | h
            · exact hequ h.symm
            · exact ih1 h
          · intro e he
            rcases List.mem_cons.1 he with h | h
            · rw [h]
              exact hequ
            · exact ih3 e h
          · intro hin
            rcases List.mem_cons.1 hin with h | h
            · exact hequ h.symm
            · exact ih4 h
        · rw [updateCheckLoop_cons_unchanged fetch digest previous url rest c2 hfu hcond]
          exact ⟨ih1, hlook, ih3, ih4⟩

theorem c6_fetch_failure_skip_witness :
    ((fun v => if v = "a" then none else some ['x']) "a" = none) ∧
    "a" ∉ (update_check (fun v => if v = "a" then none else some ['x'])
      (fun _ => "h") [("a", "old")] ["a", "b"]).updated_or_new_urls ∧
    (update_check (fun v => if v = "a" then none else some ['x'])
      (fun _ => "h") [("a", "old")] ["a", "b"]).current_hashes.lookup "a" = none :=
  ⟨by decide,
   (c6_fetch_failure_skip (fun v => if v = "a" then none else some ['x'])
     (fun _ => "h") [("a", "old")] ["a", "b"] "a" (by decide)).1,
   (c6_fetch_failure_skip (fun v => if v = "a" then none else some ['x'])
     (fun _ => "h") [("a", "old")] ["a", "b"] "a" (by decide)).2.1⟩

/- ----------------------------------------------------------------- -/
/- monitor.py: link discovery (lines 44-61) and the crawl loop       -/
/- (lines 100-119).  The URL universe is a finite type: the claim    -/
/- concerns finite reachable page graphs, and the crawl state lives  -/
/- inside this universe.  The raw hyperlink targets of a page (after -/
/- urljoin resolution and fragment and query stripping, both done by -/
/- the external urllib) are an oracle; a fetch failure simply yields -/
/- no targets, as in the source, where the page is still marked      -/
/- crawled.                                                          -/
/- ----------------------------------------------------------------- -/

/-- Embedding of discover_links (monitor.py lines 44-61): the resolved,
stripped hyperlink targets of the page that pass the scope test (the
startswith check against the base URL), collected as a set (modelled by a
deduplicated list). -/
def discover_links {α : Type} [DecidableEq α] (targets : α → List α)
    (inScope : α → Bool) (url : α) : List α :=
  ((targets url).filter inScope).dedup

/-- Final state of the discovery loop: the visited set, the accumulated
discovered-link set, the visit trace (the URLs whose links were fetched, in
order), and the worklist at loop exit. -/
structure CrawlResult (α : Type) where
  crawled : Finset α
  allLinks : Finset α
  trace : List α
  finalWorklist : List α

/-- Embedding of the discovery loop of monitor.py main (lines 107-117): pop
a URL from the worklist (the set is modelled as a duplicate-free list, the
pop takes the head); a URL already crawled is skipped (this guard matters
when a page links to itself: the update of the worklist happens before the
current URL joins the crawled set, exactly as in the source); otherwise its
links are discovered, those neither crawled nor already queued join the
worklist, all of them join the discovered-link set, and the URL joins the
crawled set and the visit trace.  The loop terminates because each step
either shrinks the worklist or enlarges the crawled set inside the finite
universe. -/
def crawlLoop {α : Type} [DecidableEq α] [Fintype α] (links : α → List α) :
    List α → Finset α → Finset α → List α → CrawlResult α
  | [], crawled, all, trace => ⟨crawled, all, trace, []⟩
  | u :: rest, crawled, all, trace =>
    if hu : u ∈ crawled then crawlLoop links rest crawled all trace
    else
      crawlLoop links
        (rest ++ (links u).dedup.filter (fun v => decide (v ∉ crawled ∧ v ∉ rest)))
        (insert u crawled) (all ∪ (links u).toFinset) (trace ++ [u])
termination_by wl crawled _ _ => ((Finset.univ \ crawled).card, wl.length)
decreasing_by
  · apply Prod.Lex.right
    simp only [List.length_cons]
    omega
  · apply Prod.Lex.left
    have hmem : u ∈ Finset.univ \ crawled := by
      simp only [Finset.mem_sdiff, Finset.mem_univ, true_and]
      exact hu
    have hset : Finset.univ \ insert u crawled = (Finset.univ \ crawled).erase u := by
      ext x
      simp only [Finset.mem_sdiff, Finset.mem_univ, true_and, Finset.mem_insert,
        Finset.mem_erase]
      tauto
    rw [hset]
    exact Finset.card_erase_lt_of_mem hmem

/-- Embedding of the discovery pass of monitor.py main: crawl from the base
URL with an empty visited set. -/
def crawl {α : Type} [DecidableEq α] [Fintype α] (targets : α → List α)
    (inScope : α → Bool) (seed : α) : CrawlResult α :=
  crawlLoop (discover_links targets inScope) [seed] ∅ ∅ []

/-- One hyperlink step of the in-scope page graph: v is among the discovered
links of u. -/
def LinkStep {α : Type} (links : α → List α) (u v : α) : Prop := v ∈ links u

/-- Reachability from the seed through in-scope hyperlinks. -/
def Reaches {α : Type} (links : α → List α) (s v : α) : Prop :=
  Relation.ReflTransGen (LinkStep links) s v

theorem crawlLoop_spec {α : Type} [DecidableEq α] [Fintype α]
    (links : α → List α) (seed : α) :
    ∀ (wl : List α) (crawled all : Finset α) (trace : List α),
      (∀ v ∈ wl, Reaches links seed v) →
      (∀ v ∈ crawled, Reaches links seed v) →
      (∀ v ∈ crawled, ∀ w ∈ links v, w ∈ crawled ∨ w ∈ wl) →
      trace.Nodup →
      (∀ v, v ∈ trace ↔ v ∈ crawled) →
      (crawlLoop links wl crawled all trace).trace.Nodup ∧
      (∀ v, v ∈ (crawlLoop links wl crawled all trace).trace ↔
        v ∈ (crawlLoop links wl crawled all trace).crawled) ∧
      (∀ v ∈ (crawlLoop links wl crawled all trace).crawled, Reaches links seed v) ∧
      (∀ v ∈ (crawlLoop links wl crawled all trace).crawled,
        ∀ w ∈ links v, w ∈ (crawlLoop links wl crawled all trace).crawled) ∧
      (∀ v ∈ crawled, v ∈ (crawlLoop links wl crawled all trace).crawled) ∧
      (∀ v ∈ wl, v ∈ (crawlLoop links wl crawled all trace).crawled) ∧
      (crawlLoop links wl crawled all trace).finalWorklist = [] := by
  intro wl crawled all trace
  induction wl, crawled, all, trace using @crawlLoop.induct α _ _ links with
  | case1 crawled all trace =>
    intro hwl hcr hclose hnd htc
    rw [crawlLoop]
    refine ⟨hnd, htc, hcr, ?_, fun v hv => hv, fun v hv => absurd hv (List.not_mem_nil v), rfl⟩
    intro v hv w hw
    rcases hclose v hv w hw with h | h
    · exact h
    · exact absurd h (List.not_mem_nil w)
  | case2 u rest crawled all trace hu ih =>
    intro hwl hcr hclose hnd htc
    rw [crawlLoop]
    rw [dif_pos hu]
    have hres := ih ?_ hcr ?_ hnd htc
    · obtain ⟨h1, h2, h3, h4, h5, h6, h7⟩ := hres
      refine ⟨h1, h2, h3, h4, h5, ?_, h7⟩
      intro v hv
      rcases List.mem_cons.1 hv with h | h
      · exact h ▸ h5 u hu
      · exact h6 v h
    · intro v hv
      exact hwl v (List.mem_cons_of_mem u hv)
    · intro v hv w hw
      rcases hclose v hv w hw with h | h
      · exact Or.inl h
      · rcases List.mem_cons.1 h with h | h
        · exact Or.inl (h ▸ hu)
        · exact Or.inr h
  | case3 u rest crawled all trace hu ih =>
    intro hwl hcr hclose hnd htc
    rw [crawlLoop]
    rw [dif_neg hu]
    have hreach_u : Reaches links seed u := hwl u (List.mem_cons_self u rest)
    have hres := ih ?_ ?_ ?_ ?_ ?_
    · obtain ⟨h1, h2, h3, h4, h5, h6, h7⟩ := hres
      refine ⟨h1, h2, h3, h4, ?_, ?_, h7⟩
      · intro v hv
        exact h5 v (Finset.mem_insert_of_mem hv)
      · intro v hv
        rcases List.mem_cons.1 hv with h | h
        · exact h ▸ h5 u (Finset.mem_insert_self u crawled)
        · exact h6 v (List.mem_append_left _ h)
    · intro v hv
      rcases List.mem_append.1 hv with h | h
      · exact hwl v (List.mem_cons_of_mem u h)
      · have hv' : v ∈ links u := List.mem_dedup.1 (List.mem_of_mem_filter h)
        exact Relation.ReflTransGen.tail hreach_u hv'
    · intro v hv
      rcases Finset.mem_insert.1 hv with h | h
      · exact h ▸ hreach_u
      · exact hcr v h
    · intro v hv w hw
      rcases Finset.mem_insert.1 hv with h | h
      · subst h
        by_cases hwc : w ∈ crawled
        · exact Or.inl (Finset.mem_insert_of_mem hwc)
        · by_cases hwr : w ∈ rest
          · exact Or.inr (List.mem_append_left _ hwr)
          · refine Or.inr (List.mem_append_right _ ?_)
            rw [List.mem_filter]
            exact ⟨List.mem_dedup.2 hw, by simp [hwc, hwr]⟩
      · rcases hclose v h w hw with h' | h'
        · exact Or.inl (Finset.mem_insert_of_mem h')
        · rcases List.mem_cons.1 h' with h' | h'
          · exact Or.inl (h' ▸ Finset.mem_insert_self u crawled)
          · exact Or.inr (List.mem_append_left _ h')
    · rw [List.nodup_append]
      refine ⟨hnd, List.nodup_singleton u, ?_⟩
      intro a ha hb
      rcases List.mem_singleton.1 hb with rfl
      exact hu ((htc a).1 ha)
    · intro v
      rw [List.mem_append, List.mem_singleton, Finset.mem_insert, htc v]
      tauto

/-- C8: over any finite URL universe, the worklist traversal of monitor.py
visits — fetches the links of — each in-scope URL reachable from the seed
exactly once: the visit trace has no duplicates and contains exactly the
URLs reachable through discovered links; a URL enters the visited set when
first popped and is never re-added to the worklist once visited (the update
only queues links outside the visited set); and the loop terminates with the
worklist empty — crawl is a total function whose recursion is measured by
the unvisited portion of the finite universe, and its only exit returns the
empty worklist. -/
theorem c8_crawl_exactly_once {α : Type} [DecidableEq α] [Fintype α]
    (targets : α → List α) (inScope : α → Bool) (seed : α) :
    (crawl targets inScope seed).trace.Nodup ∧
    (∀ v, v ∈ (crawl targets inScope seed).trace ↔
      Reaches (discover_links targets inScope) seed v) ∧
    (crawl targets inScope seed).finalWorklist = [] := by
  have h := crawlLoop_spec (discover_links targets inScope) seed [seed] ∅ ∅ []
    (fun v hv => by
      rcases List.mem_singleton.1 hv with rfl
      exact Relation.ReflTransGen.refl)
    (fun v hv => absurd hv (Finset.not_mem_empty v))
    (fun v hv => absurd hv (Finset.not_mem_empty v))
    List.nodup_nil
    (fun v => by simp)
  obtain ⟨h1, h2, h3, h4, h5, h6, h7⟩ := h
  unfold crawl
  refine ⟨h1, ?_, h7⟩
  intro v
  rw [h2 v]
  constructor
  · exact h3 v
  · intro hr
    induction hr with
    | refl => exact h6 seed (List.mem_singleton_self seed)
    | tail hab hbc ihv => exact h4 _ ihv _ hbc
